import Mathlib

/-
Verification of the rate-paced transaction submission engine (sendtx.js).

The source is a single async JavaScript program.  The shallow embedding below
translates each part of it into executable Lean definitions:

* The per-task logic of `sendOne` (lines 88-132): the status-subscription
  callback is driven by a list of status events delivered for the submitted
  operation; the shared counters `sent`, `succeeded`, `failed` are a record
  threaded through the event handler exactly as the callback mutates them.
* The argv validation (lines 42-49), `plannedTotal` (line 136), `intervalMs`
  (line 135), `scheduleTick` (lines 144-153) and the pacing-loop body
  (lines 155-173) become pure functions.  Numeric argv values are modelled
  as rationals (floating-point rounding is out of scope).
* The interleaved execution of the pacing loop, the p-limit concurrency
  limiter and the asynchronously completing workers becomes a labelled
  transition system `Step` / `Reach` over a scheduler state.  JavaScript is
  single threaded, so every synchronous block of the source is one atomic
  transition; p-limit starts queued functions in FIFO order and only while
  its `activeCount` is below the bound, which is what the `start` transition
  encodes; `currentNonce++` is part of the synchronous prefix of `sendOne`,
  so it happens atomically at start time (auto nonce mode, lines 92-93).
-/

namespace SendTx

/-- Status events observed by the `signAndSend` callback (lines 105-120).
`inBlock` is `result.status.isInBlock`, `finalized` is
`result.status.isFinalized`, `error` is `result.isError`, and `other` stands
for any other status (ready, broadcast, ...) which hits no branch. -/
inductive TxEvent where
  | inBlock
  | finalized
  | error
  | other
deriving DecidableEq

/-- Outcome a task promise can settle with: `resolve` on inclusion
(line 111) or `reject` on a definitive error (line 119). -/
inductive Outcome where
  | included
  | errored
deriving DecidableEq

/-- Which events settle the task promise, and with what outcome: `inBlock`
resolves it as included, `isError` rejects it; `finalized` and all other
statuses settle nothing (lines 106-120). -/
def eventOutcome : TxEvent → Option Outcome
  | TxEvent.inBlock => some Outcome.included
  | TxEvent.error => some Outcome.errored
  | TxEvent.finalized => none
  | TxEvent.other => none

/-- A JavaScript promise settles on the first `resolve` or `reject` call;
later calls are no-ops.  So the outcome of a task is decided by the first
event of its stream that carries an outcome. -/
def resolveOutcome : List TxEvent → Option Outcome
  | [] => none
  | e :: rest =>
    match eventOutcome e with
    | some o => some o
    | none => resolveOutcome rest

/-- The shared counters of the run (lines 81-83). -/
structure Counters where
  sent : Nat
  succeeded : Nat
  failed : Nat
deriving DecidableEq

/-- Counter effect of one callback invocation (lines 106-120): `inBlock`
does `succeeded++; sent++`, `isError` does `failed++; sent++`, the
`finalized` branch and unmatched statuses touch nothing.  The callback
updates the counters on every matching event, whether or not the task
promise is already settled: the subscription is never unsubscribed (the
`unsubPromise` of line 105 is never awaited or called). -/
def applyEvent (c : Counters) : TxEvent → Counters
  | TxEvent.inBlock =>
      { c with succeeded := c.succeeded + 1, sent := c.sent + 1 }
  | TxEvent.error =>
      { c with failed := c.failed + 1, sent := c.sent + 1 }
  | TxEvent.finalized => c
  | TxEvent.other => c

/-- Counter effect of a whole delivered event stream. -/
def applyEvents (c : Counters) (evs : List TxEvent) : Counters :=
  evs.foldl applyEvent c

/-- Environment behaviour of one submission task, i.e. what the external
ledger client does for it:
* `buildThrow` — the synchronous prefix of `sendOne` raises before the
  promise is created (e.g. `api.tx.balances.transfer` at line 100 throws);
* `submitReject` — the promise returned by `signAndSend` rejects, hitting
  the `.catch` at lines 121-125;
* `events evs` — submission succeeds and the status callback is invoked
  once for each event of `evs`, in order. -/
inductive Beh where
  | buildThrow
  | submitReject
  | events (evs : List TxEvent)
deriving DecidableEq

/-- Whether the promise returned by `sendOne` eventually settles under the
given behaviour, releasing the task's p-limit slot.  An event stream with
no outcome-carrying event leaves the promise pending forever. -/
def settles : Beh → Bool
  | Beh.buildThrow => true
  | Beh.submitReject => true
  | Beh.events evs => (resolveOutcome evs).isSome

/-- Total counter contribution of one task under a behaviour, starting from
zero: `buildThrow` hits the catch at lines 127-131 (`failed++; sent++`),
`submitReject` hits the `.catch` at lines 121-125 (`failed++; sent++`),
and an event stream feeds the status callback. -/
def taskCounters : Beh → Counters
  | Beh.buildThrow => { sent := 1, succeeded := 0, failed := 1 }
  | Beh.submitReject => { sent := 1, succeeded := 0, failed := 1 }
  | Beh.events evs => applyEvents { sent := 0, succeeded := 0, failed := 0 } evs

/-- Settlement state of the promise returned by `sendOne`. -/
inductive TaskPromise where
  | fulfilled (o : Outcome)
  | rejected
  | pending
deriving DecidableEq

/-- Result of calling `sendOne` (lines 88-132): a synchronous exception in
the try block is rethrown after the counters are bumped (line 130), which
in an async function surfaces as `Except.error`; otherwise the returned
promise fulfils on a first `inBlock` event, rejects on a first `isError`
event or on submission rejection, and stays pending if no outcome-carrying
event ever arrives. -/
def sendOneRes : Beh → Except Unit TaskPromise
  | Beh.buildThrow => Except.error ()
  | Beh.submitReject => Except.ok TaskPromise.rejected
  | Beh.events evs =>
    Except.ok
      (match resolveOutcome evs with
       | some Outcome.included => TaskPromise.fulfilled Outcome.included
       | some Outcome.errored => TaskPromise.rejected
       | none => TaskPromise.pending)

/-- How the scheduler sees a task after the wrapper
`sendOne(i).catch(e => console.error(...))` of lines 148-150: the `.catch`
turns any exception or rejection into a fulfilled promise.  `crashed`
stands for an exception escaping into the scheduler. -/
inductive SchedulerView where
  | taskSettled
  | taskPending
  | crashed
deriving DecidableEq

/-- The `.catch` wrapper of `scheduleTick` (lines 148-150) applied to the
result of `sendOne`: exceptions and rejections are logged and become a
settled task; only a pending promise stays pending. -/
def catchTask : Except Unit TaskPromise → SchedulerView
  | Except.error _ => SchedulerView.taskSettled
  | Except.ok TaskPromise.pending => SchedulerView.taskPending
  | Except.ok (TaskPromise.fulfilled _) => SchedulerView.taskSettled
  | Except.ok TaskPromise.rejected => SchedulerView.taskSettled

/-- The final summary printed after `Promise.allSettled` (lines 179-184):
`attempted` is the value of `index`, which in a drained run equals the
number of admitted tasks. -/
structure Summary where
  attempted : Nat
  sent : Nat
  succeeded : Nat
  failed : Nat
deriving DecidableEq

/-- Summary of a drained run in which task `i` had behaviour `bs[i]` and
all listed events were delivered before the summary was read.  Counter
increments are single adds on a shared record in a single-threaded runtime,
so the totals are the sums of the per-task contributions, independent of
interleaving. -/
def runSummary (bs : List Beh) : Summary :=
  { attempted := bs.length
  , sent := (bs.map (fun b => (taskCounters b).sent)).sum
  , succeeded := (bs.map (fun b => (taskCounters b).succeeded)).sum
  , failed := (bs.map (fun b => (taskCounters b).failed)).sum }

/-- JavaScript truthiness of an optional numeric argv value: `undefined`
and `0` are falsy, every other number is truthy.  This is exactly the test
applied by `!argv.duration`, `argv.duration && argv.totalTxs` at
lines 42-49. -/
def truthyNum (x : Option ℚ) : Bool :=
  match x with
  | none => false
  | some v => decide (v ≠ 0)

/-- Result of the argv validation at lines 42-49. -/
inductive ValidateResult where
  | ok
  | errMissing
  | errBoth
deriving DecidableEq

/-- The two validation checks of lines 42-49, in source order:
`if (!argv.duration && !argv.totalTxs) exit(1)` then
`if (argv.duration && argv.totalTxs) exit(1)`. -/
def validateArgs (duration totalTxs : Option ℚ) : ValidateResult :=
  if !truthyNum duration && !truthyNum totalTxs then ValidateResult.errMissing
  else if truthyNum duration && truthyNum totalTxs then ValidateResult.errBoth
  else ValidateResult.ok

/-- Startup outcome: both validation failures call `process.exit(1)` before
the provider is created, so before any connection or issuance. -/
inductive StartupOutcome where
  | fatalConfig
  | proceeds
deriving DecidableEq

/-- Startup control flow: only a validated configuration reaches the rest
of the program (connection, nonce read, scheduling). -/
def startup (duration totalTxs : Option ℚ) : StartupOutcome :=
  match validateArgs duration totalTxs with
  | ValidateResult.ok => StartupOutcome.proceeds
  | ValidateResult.errMissing => StartupOutcome.fatalConfig
  | ValidateResult.errBoth => StartupOutcome.fatalConfig

/-- Line 136: `plannedTotal = totalTxs ?? Math.ceil(duration * tps)`.  The
nullish coalescing operator falls through only on `undefined`, so any
supplied `totalTxs` (including `0`) is taken as is. -/
def plannedTotal (totalTxs : Option ℚ) (duration tps : ℚ) : ℚ :=
  match totalTxs with
  | some c => c
  | none => ((⌈duration * tps⌉ : ℤ) : ℚ)

/-- Line 135: `intervalMs = 1000 / tps`. -/
def intervalMs (tps : ℚ) : ℚ := 1000 / tps

/-- Lines 144-153: `scheduleTick` returns false without admitting when
`index >= plannedTotal`, otherwise admits task `index` and increments it.
The returned pair is the new `index` and the returned boolean. -/
def scheduleTick (planned idx : Nat) : Nat × Bool :=
  if planned ≤ idx then (idx, false) else (idx + 1, true)

/-- Mutable state of the pacing loop (lines 156-173): the admission counter
`index` and the target timestamp `nextTime` (in ms). -/
structure PaceState where
  idx : Nat
  nextTime : ℚ
deriving DecidableEq

/-- Observable action of one pacing-loop iteration: either one admission is
issued, or the loop sleeps for the given number of milliseconds. -/
inductive PaceAct where
  | issued
  | slept (ms : ℚ)
deriving DecidableEq

/-- One iteration of the pacing loop (lines 157-166): if `now >= nextTime`
it calls `scheduleTick()` once and advances `nextTime` by exactly one
interval; otherwise it awaits `setTimeout` for `max 0 (nextTime - now)`
milliseconds. -/
def paceStep (planned : Nat) (ivl : ℚ) (s : PaceState) (now : ℚ) :
    PaceState × PaceAct :=
  if s.nextTime ≤ now then
    ({ idx := (scheduleTick planned s.idx).1, nextTime := s.nextTime + ivl },
     PaceAct.issued)
  else
    (s, PaceAct.slept (max 0 (s.nextTime - now)))

/-- Immutable configuration of a run: concurrency bound `K`
(`--concurrency`), `planned` (`plannedTotal`) and the initial nonce read
from the chain at line 77 (`n0`, auto nonce mode). -/
structure Cfg where
  K : Nat
  planned : Nat
  n0 : Nat

/-- Scheduler state of the transition system:
* `admitted` — value of `index`; tasks `0 .. admitted-1` have been handed
  to the p-limit queue by `scheduleTick`, in index order (line 147);
* `started` — tasks whose `sendOne` invocation has begun.  p-limit is a
  FIFO queue, so the started tasks are exactly `0 .. started-1`;
* `cursor` — value of `currentNonce` (line 75);
* `assigns` — the `(task index, nonce)` pairs in assignment order,
  recording each execution of `nonceForThis = currentNonce++` (line 93);
* `settled` — indices of started tasks whose wrapped promise has settled,
  each releasing its p-limit slot. -/
structure St where
  admitted : Nat
  started : Nat
  cursor : Nat
  assigns : List (Nat × Nat)
  settled : List Nat

/-- Initial state: nothing admitted, cursor at the nonce read from chain. -/
def initSt (n0 : Nat) : St :=
  { admitted := 0, started := 0, cursor := n0, assigns := [], settled := [] }

/-- Number of started-but-not-settled tasks; this is p-limit's
`activeCount`. -/
def nonTerminalCount (s : St) : Nat :=
  s.started - s.settled.length

/-- The nonce assignment a run is supposed to produce: task `i` gets
`n0 + i`. -/
def canonicalAssigns (n0 m : Nat) : List (Nat × Nat) :=
  (List.range m).map (fun i => (i, n0 + i))

/-- Atomic transitions of the run.  Each corresponds to one synchronous
block of the single-threaded source:
* `admit` — one successful `scheduleTick` (lines 144-153): only fires while
  `index < plannedTotal` and enqueues the next task in index order;
* `start` — p-limit invokes the next queued function; its synchronous
  prefix executes `nonceForThis = currentNonce++` (lines 92-93).  p-limit is
  FIFO and only starts a function while `activeCount` is below the bound;
* `settle` — the wrapped promise of a started task settles (its behaviour
  permitting), releasing its slot.  Settlement order is arbitrary. -/
inductive Step (cfg : Cfg) (env : Nat → Beh) : St → St → Prop where
  | admitTask (s : St) (h : s.admitted < cfg.planned) :
      Step cfg env s { s with admitted := s.admitted + 1 }
  | start (s : St) (hq : s.started < s.admitted)
      (hK : s.started - s.settled.length < cfg.K) :
      Step cfg env s
        { s with started := s.started + 1, cursor := s.cursor + 1,
                 assigns := s.assigns ++ [(s.started, s.cursor)] }
  | settle (s : St) (i : Nat) (hi : i < s.started) (hmem : i ∉ s.settled)
      (hs : settles (env i) = true) :
      Step cfg env s { s with settled := i :: s.settled }

/-- States reachable from the initial state by any interleaving. -/
inductive Reach (cfg : Cfg) (env : Nat → Beh) : St → Prop where
  | init : Reach cfg env (initSt cfg.n0)
  | step {s t : St} : Reach cfg env s → Step cfg env s t → Reach cfg env t

/-- The state of a run that has admitted, started and settled tasks
`0 .. m-1`: used to build concrete executions. -/
def fullSt (n0 m : Nat) : St :=
  { admitted := m, started := m, cursor := n0 + m,
    assigns := canonicalAssigns n0 m, settled := (List.range m).reverse }

/-- Demo configuration: K = 1, planned = 2, initial nonce 5. -/
def demoCfg : Cfg := { K := 1, planned := 2, n0 := 5 }

/-- Demo environment: every task's operation gets included. -/
def demoEnv : Nat → Beh := fun _ => Beh.events [TxEvent.inBlock]

/-- Configuration for the scenario of claim C5: K = 2, planned = 5,
initial nonce 0. -/
def demoCfg5 : Cfg := { K := 2, planned := 5, n0 := 0 }

/-- Environment where the build step of task 3 throws and every other task
succeeds. -/
def demoEnvThrow : Nat → Beh :=
  fun i => if i = 3 then Beh.buildThrow else Beh.events [TxEvent.inBlock]

/-- The run of the C2 counterexample: the first task's subscription
delivers a definitive error after the task already resolved as included
(possible because the subscription is never unsubscribed, e.g. the
including block is retracted and the operation later dropped); the second
task is included normally.  Both promises settle, so the run drains. -/
def cexRun : List Beh :=
  [Beh.events [TxEvent.inBlock, TxEvent.error], Beh.events [TxEvent.inBlock]]

/-- Invariant of the scheduler transition system, established below for all
reachable states:
* tasks start only after admission and admissions never exceed the plan;
* the nonce cursor has advanced once per started task;
* the recorded assignments give task `i` the nonce `n0 + i`;
* the settled list holds distinct started tasks;
* at most `K` started tasks are unsettled (p-limit's bound);
* with `K` = 1 a task starts only once every earlier task has settled. -/
structure Inv (cfg : Cfg) (s : St) : Prop where
  hsa : s.started ≤ s.admitted
  hap : s.admitted ≤ cfg.planned
  hcur : s.cursor = cfg.n0 + s.started
  hassign : s.assigns = canonicalAssigns cfg.n0 s.started
  hnd : s.settled.Nodup
  hlt : ∀ i ∈ s.settled, i < s.started
  hK : s.started - s.settled.length ≤ cfg.K
  hseq : cfg.K = 1 → ∀ i, i + 1 < s.started → i ∈ s.settled

/-- A promise that has settled stays settled: delivering further events
never changes the resolved outcome. -/
theorem resolveOutcome_append (evs extra : List TxEvent) (o : Outcome)
    (h : resolveOutcome evs = some o) :
    resolveOutcome (evs ++ extra) = some o := by
  induction evs with
  | nil => simp [resolveOutcome] at h
  | cons e rest ih =>
    rw [List.cons_append]
    unfold resolveOutcome at h ⊢
    cases he : eventOutcome e with
    | some o2 => simpa [he] using by simpa [he] using h
    | none =>
      simp only [he] at h ⊢
      exact ih h

/-- If an event stream resolves as included, it contains an `inBlock`
event. -/
theorem resolve_included_mem (evs : List TxEvent)
    (h : resolveOutcome evs = some Outcome.included) :
    TxEvent.inBlock ∈ evs := by
  induction evs with
  | nil => simp [resolveOutcome] at h
  | cons e rest ih =>
    unfold resolveOutcome at h
    cases e with
    | inBlock => exact List.mem_cons_self _ _
    | error => simp [eventOutcome] at h
    | finalized => exact List.mem_cons_of_mem _ (ih (by simpa [eventOutcome] using h))
    | other => exact List.mem_cons_of_mem _ (ih (by simpa [eventOutcome] using h))

/-- Closed form of the counter effect of an event stream: `succeeded` grows
by the number of `inBlock` events, `failed` by the number of `error`
events, `sent` by both. -/
theorem applyEvents_spec (evs : List TxEvent) (c : Counters) :
    applyEvents c evs =
      { sent := c.sent + evs.count TxEvent.inBlock + evs.count TxEvent.error
      , succeeded := c.succeeded + evs.count TxEvent.inBlock
      , failed := c.failed + evs.count TxEvent.error } := by
  induction evs generalizing c with
  | nil => simp [applyEvents]
  | cons e rest ih =>
    have h1 : applyEvents c (e :: rest) = applyEvents (applyEvent c e) rest := rfl
    rw [h1, ih]
    cases e <;>
      simp [applyEvent, List.count_cons, Counters.mk.injEq] <;> omega

/-- C4: the worker resolves its outcome on the first status event that
signals inclusion (success) or a definitive error (failure); any events
delivered after that first resolving event — `evs2` is universally
quantified, e.g. a later finality confirmation — do not change the
already-resolved outcome. -/
theorem c4_first_event_resolution (evs1 evs2 : List TxEvent) (e : TxEvent)
    (o : Outcome) (h1 : ∀ x ∈ evs1, eventOutcome x = none)
    (h2 : eventOutcome e = some o) :
    resolveOutcome (evs1 ++ e :: evs2) = some o := by
  induction evs1 with
  | nil =>
    unfold resolveOutcome
    simp [h2]
  | cons x xs ih =>
    have hx : eventOutcome x = none := h1 x (List.mem_cons_self x xs)
    rw [List.cons_append]
    unfold resolveOutcome
    simp only [hx]
    exact ih (fun y hy => h1 y (List.mem_cons_of_mem x hy))

/-- Witness for C4: a stream whose first resolving event is `inBlock`
resolves as included, and the later finality confirmation and even a later
error event leave the outcome unchanged. -/
theorem c4_first_event_resolution_w :
    resolveOutcome
        [TxEvent.other, TxEvent.inBlock, TxEvent.finalized, TxEvent.error] =
      some Outcome.included :=
  c4_first_event_resolution [TxEvent.other]
    [TxEvent.finalized, TxEvent.error] TxEvent.inBlock Outcome.included
    (by decide) (by decide)

/-- C10: a task whose status stream emits an error-class event after the
task already resolved as included still bumps `failed` and `sent` again —
the subscription is never unsubscribed — so one task contributes to both
the succeeded and the failed totals, while the already-resolved outcome of
its promise stays `included`. -/
theorem c10_post_resolution_double_count (evs1 evs2 : List TxEvent)
    (h : resolveOutcome evs1 = some Outcome.included) :
    1 ≤ (taskCounters (Beh.events (evs1 ++ TxEvent.error :: evs2))).succeeded
    ∧ 1 ≤ (taskCounters (Beh.events (evs1 ++ TxEvent.error :: evs2))).failed
    ∧ 2 ≤ (taskCounters (Beh.events (evs1 ++ TxEvent.error :: evs2))).sent
    ∧ resolveOutcome (evs1 ++ TxEvent.error :: evs2) = some Outcome.included := by
  have hmem1 : TxEvent.inBlock ∈ evs1 ++ TxEvent.error :: evs2 :=
    List.mem_append_left _ (resolve_included_mem evs1 h)
  have hmem2 : TxEvent.error ∈ evs1 ++ TxEvent.error :: evs2 :=
    List.mem_append_right _ (List.mem_cons_self _ _)
  have hc1 : 0 < (evs1 ++ TxEvent.error :: evs2).count TxEvent.inBlock :=
    List.count_pos_iff.mpr hmem1
  have hc2 : 0 < (evs1 ++ TxEvent.error :: evs2).count TxEvent.error :=
    List.count_pos_iff.mpr hmem2
  have hspec := applyEvents_spec (evs1 ++ TxEvent.error :: evs2)
    { sent := 0, succeeded := 0, failed := 0 }
  refine ⟨?_, ?_, ?_, resolveOutcome_append evs1 (TxEvent.error :: evs2) _ h⟩
  · simp only [taskCounters, hspec]; omega
  · simp only [taskCounters, hspec]; omega
  · simp only [taskCounters, hspec]; omega

/-- Witness for C10: the stream `[inBlock, error]` resolves as included yet
counts one success, one failure and two sent attempts. -/
theorem c10_post_resolution_double_count_w :
    1 ≤ (taskCounters (Beh.events [TxEvent.inBlock, TxEvent.error])).succeeded
    ∧ 1 ≤ (taskCounters (Beh.events [TxEvent.inBlock, TxEvent.error])).failed
    ∧ 2 ≤ (taskCounters (Beh.events [TxEvent.inBlock, TxEvent.error])).sent
    ∧ resolveOutcome [TxEvent.inBlock, TxEvent.error] = some Outcome.included :=
  c10_post_resolution_double_count [TxEvent.inBlock] [] (by decide)

/-- C2, counterexample: a two-task drained run (both promises settle, so
`run()` returns) in which the first task's subscription delivers an error
event after its inclusion — possible while the second task is still in
flight, since the subscription is never unsubscribed.  The summary then
reads attempted = 2 but succeeded + failed = 3, refuting the claim that
attempted = succeeded + failed holds for every run regardless of per-task
failures. -/
theorem c2_summary_counterexample :
    cexRun.all settles = true
    ∧ (runSummary cexRun).attempted = 2
    ∧ (runSummary cexRun).succeeded = 2
    ∧ (runSummary cexRun).failed = 1
    ∧ ¬ (runSummary cexRun).attempted =
        (runSummary cexRun).succeeded + (runSummary cexRun).failed := by
  decide

/-- C2, amended: after `run()` returns, attempted = succeeded + failed
holds for every run in which each admitted task's delivered history counts
exactly one terminal outcome (one inclusion or one error/exception) — that
is, as long as no task's subscription delivers a further counted event
after its first resolving event (compare C10). -/
theorem c2_summary_amended (bs : List Beh)
    (h : ∀ b ∈ bs, (taskCounters b).succeeded + (taskCounters b).failed = 1) :
    (runSummary bs).attempted =
      (runSummary bs).succeeded + (runSummary bs).failed := by
  induction bs with
  | nil => simp [runSummary]
  | cons b rest ih =>
    have hb := h b (List.mem_cons_self b rest)
    have hr := ih (fun x hx => h x (List.mem_cons_of_mem b hx))
    simp only [runSummary, List.length_cons, List.map_cons, List.sum_cons] at hr ⊢
    omega

/-- Witness for C2 (amended): a run with one build failure and one included
operation satisfies the exactly-once hypothesis and balances. -/
theorem c2_summary_amended_w :
    (runSummary [Beh.buildThrow, Beh.events [TxEvent.inBlock]]).attempted =
      (runSummary [Beh.buildThrow, Beh.events [TxEvent.inBlock]]).succeeded +
        (runSummary [Beh.buildThrow, Beh.events [TxEvent.inBlock]]).failed :=
  c2_summary_amended [Beh.buildThrow, Beh.events [TxEvent.inBlock]] (by decide)

/-- C9: a plan whose only supplied termination value is zero is rejected at
startup with the missing-termination-condition error, because the
truthiness-based presence checks treat the value 0 as absent; supplying 0
for both is rejected the same way, exactly like supplying nothing. -/
theorem c9_zero_treated_absent :
    validateArgs (some 0) none = ValidateResult.errMissing
    ∧ validateArgs none (some 0) = ValidateResult.errMissing
    ∧ validateArgs (some 0) (some 0) = ValidateResult.errMissing
    ∧ validateArgs none none = ValidateResult.errMissing
    ∧ truthyNum (some (0 : ℚ)) = false
    ∧ startup (some 0) none = StartupOutcome.fatalConfig := by
  decide

/-- C7: if both termination conditions are supplied (in the code's sense of
a present, nonzero value — per C9 a supplied zero counts as absent) or
neither is, validation fails and startup exits fatally before the
connection is opened and before any issuance. -/
theorem c7_config_exclusivity (d t : Option ℚ)
    (h : truthyNum d = truthyNum t) :
    validateArgs d t ≠ ValidateResult.ok
    ∧ startup d t = StartupOutcome.fatalConfig := by
  cases hd : truthyNum d with
  | false =>
    have ht : truthyNum t = false := by rw [← h, hd]
    simp [validateArgs, startup, hd, ht]
  | true =>
    have ht : truthyNum t = true := by rw [← h, hd]
    simp [validateArgs, startup, hd, ht]

/-- Witness for C7: duration 3 and totalTxs 7 supplied together are
rejected before startup proceeds. -/
theorem c7_config_exclusivity_w :
    validateArgs (some 3) (some 7) ≠ ValidateResult.ok
    ∧ startup (some 3) (some 7) = StartupOutcome.fatalConfig :=
  c7_config_exclusivity (some 3) (some 7) (by decide)

/-- C8: the pacing loop uses the ideal interval 1000 / tps; inside the loop
(so with `idx < planned`), whenever the current time has reached the target
it issues exactly one admission and advances the target by exactly one
interval — the new target does not depend on how late the tick is, so there
is no variable catch-up — and when the current time is before the target it
suspends for the remaining `nextTime - now` milliseconds instead of
polling. -/
theorem c8_pacing_step (tps : ℚ) (planned : Nat) (s : PaceState) (now : ℚ)
    (h : s.idx < planned) :
    intervalMs tps = 1000 / tps
    ∧ (s.nextTime ≤ now →
        paceStep planned (intervalMs tps) s now =
          ({ idx := s.idx + 1, nextTime := s.nextTime + intervalMs tps },
           PaceAct.issued))
    ∧ (now < s.nextTime →
        paceStep planned (intervalMs tps) s now =
          (s, PaceAct.slept (s.nextTime - now))
        ∧ 0 < s.nextTime - now) := by
  refine ⟨rfl, ?_, ?_⟩
  · intro hle
    have hnot : ¬ planned ≤ s.idx := Nat.not_le.mpr h
    simp [paceStep, hle, scheduleTick, hnot]
  · intro hlt
    have hnle : ¬ s.nextTime ≤ now := not_le.mpr hlt
    have hpos : 0 < s.nextTime - now := sub_pos.mpr hlt
    refine ⟨?_, hpos⟩
    simp only [paceStep, if_neg hnle]
    rw [max_eq_right (le_of_lt hpos)]

/-- Witness for C8: with tps = 2 the interval is 500 ms; a due tick at
time 100 admits one task and moves the target to 600, and an early wakeup
at time 40 before target 100 sleeps exactly 60 ms. -/
theorem c8_pacing_step_w :
    paceStep 5 (intervalMs 2) { idx := 1, nextTime := 100 } 100 =
      ({ idx := 2, nextTime := 100 + intervalMs 2 }, PaceAct.issued)
    ∧ paceStep 5 (intervalMs 2) { idx := 1, nextTime := 100 } 40 =
      ({ idx := 1, nextTime := 100 }, PaceAct.slept ((100 : ℚ) - 40)) :=
  ⟨(c8_pacing_step 2 5 { idx := 1, nextTime := 100 } 100 (by decide)).2.1
      (by decide),
   ((c8_pacing_step 2 5 { idx := 1, nextTime := 100 } 40 (by decide)).2.2
      (by decide)).1⟩

/-- A duplicate-free list of naturals below `n` has at most `n` elements. -/
theorem nodup_below_length_le (l : List Nat) (n : Nat) (hnd : l.Nodup)
    (hlt : ∀ i ∈ l, i < n) : l.length ≤ n := by
  have hsub : l.toFinset ⊆ Finset.range n := by
    intro x hx
    exact Finset.mem_range.mpr (hlt x (List.mem_toFinset.mp hx))
  calc l.length = l.toFinset.card := (List.toFinset_card_of_nodup hnd).symm
    _ ≤ (Finset.range n).card := Finset.card_le_card hsub
    _ = n := Finset.card_range n

/-- A duplicate-free list of naturals below `n` with at least `n` elements
contains every natural below `n`. -/
theorem nodup_below_full (l : List Nat) (n : Nat) (hnd : l.Nodup)
    (hlt : ∀ i ∈ l, i < n) (hlen : n ≤ l.length) :
    ∀ i, i < n → i ∈ l := by
  have hsub : l.toFinset ⊆ Finset.range n := by
    intro x hx
    exact Finset.mem_range.mpr (hlt x (List.mem_toFinset.mp hx))
  have hcard : (Finset.range n).card ≤ l.toFinset.card := by
    rw [Finset.card_range, List.toFinset_card_of_nodup hnd]
    exact hlen
  have heq : l.toFinset = Finset.range n :=
    Finset.eq_of_subset_of_card_le hsub hcard
  intro i hi
  have : i ∈ l.toFinset := heq ▸ Finset.mem_range.mpr hi
  exact List.mem_toFinset.mp this

/-- Unfolding of the canonical assignment list by one issuance. -/
theorem canonicalAssigns_succ (n0 m : Nat) :
    canonicalAssigns n0 (m + 1) = canonicalAssigns n0 m ++ [(m, n0 + m)] := by
  simp [canonicalAssigns, List.range_succ]

/-- Every transition preserves the scheduler invariant. -/
theorem step_inv {cfg : Cfg} {env : Nat → Beh} {s t : St}
    (hI : Inv cfg s) (hstep : Step cfg env s t) : Inv cfg t := by
  cases hstep with
  | admitTask h =>
    exact { hsa := Nat.le_succ_of_le hI.hsa, hap := h, hcur := hI.hcur,
            hassign := hI.hassign, hnd := hI.hnd, hlt := hI.hlt,
            hK := hI.hK, hseq := hI.hseq }
  | start hq hKg =>
    have hlen : s.settled.length ≤ s.started :=
      nodup_below_length_le s.settled s.started hI.hnd hI.hlt
    refine { hsa := hq, hap := hI.hap, hcur := ?_, hassign := ?_,
             hnd := hI.hnd, hlt := ?_, hK := ?_, hseq := ?_ }
    · simp only [hI.hcur]
      omega
    · simp only [hI.hassign, hI.hcur, canonicalAssigns_succ]
    · exact fun i hi => Nat.lt_succ_of_lt (hI.hlt i hi)
    · show s.started + 1 - s.settled.length ≤ cfg.K
      omega
    · intro hK1 i hi
      have hfull : s.started ≤ s.settled.length := by omega
      exact nodup_below_full s.settled s.started hI.hnd hI.hlt hfull i
        (by simpa using Nat.lt_of_succ_lt_succ hi)
  | settle i hi hmem hsets =>
    refine { hsa := hI.hsa, hap := hI.hap, hcur := hI.hcur,
             hassign := hI.hassign, hnd := ?_, hlt := ?_, hK := ?_,
             hseq := ?_ }
    · exact List.nodup_cons.mpr ⟨hmem, hI.hnd⟩
    · intro j hj
      rcases List.mem_cons.mp hj with h1 | h2
      · exact h1 ▸ hi
      · exact hI.hlt j h2
    · have := hI.hK
      simp only [List.length_cons]
      omega
    · exact fun hK1 j hj => List.mem_cons_of_mem _ (hI.hseq hK1 j hj)

/-- The invariant holds in every reachable state. -/
theorem reach_inv {cfg : Cfg} {env : Nat → Beh} {s : St}
    (h : Reach cfg env s) : Inv cfg s := by
  induction h with
  | init =>
    refine { hsa := ?_, hap := ?_, hcur := ?_, hassign := ?_, hnd := ?_,
             hlt := ?_, hK := ?_, hseq := ?_ } <;>
      simp [initSt, canonicalAssigns]
  | step hR hstep ih => exact step_inv ih hstep

/-- Unfolding of the completed-prefix state by one task. -/
theorem fullSt_succ (n0 m : Nat) :
    fullSt n0 (m + 1) =
      { admitted := m + 1, started := m + 1, cursor := n0 + (m + 1),
        assigns := canonicalAssigns n0 m ++ [(m, n0 + m)],
        settled := m :: (List.range m).reverse } := by
  simp [fullSt, canonicalAssigns_succ, List.range_succ]

/-- Whenever the concurrency bound is at least one and every task's
behaviour settles, the run can execute to completion: admitting, starting
and settling the tasks one after the other reaches the state where all `m`
tasks are done.  In particular a failing task does not stall the run. -/
theorem reachFull (cfg : Cfg) (env : Nat → Beh) (hK : 1 ≤ cfg.K)
    (hs : ∀ i, i < cfg.planned → settles (env i) = true) :
    ∀ m, m ≤ cfg.planned → Reach cfg env (fullSt cfg.n0 m) := by
  intro m
  induction m with
  | zero =>
    intro _
    exact Reach.init
  | succ m ih =>
    intro hm
    have h1 : Reach cfg env (fullSt cfg.n0 m) := ih (Nat.le_of_succ_le hm)
    have r1 := Reach.step h1
      (Step.admitTask (fullSt cfg.n0 m) (Nat.lt_of_lt_of_le (Nat.lt_succ_self m) hm))
    have r2 := Reach.step r1
      (Step.start _ (Nat.lt_succ_self m)
        (by
          show m - ((List.range m).reverse).length < cfg.K
          simpa using hK))
    have r3 := Reach.step r2
      (Step.settle _ m (Nat.lt_succ_self m)
        (by simp [fullSt])
        (hs m (Nat.lt_of_succ_le hm)))
    rw [fullSt_succ]
    exact r3

/-- C1: in auto nonce mode with initial cursor `n0`, in every reachable
state of every run — any interleaving of admissions, starts and
settlements, so regardless of completion order and of per-task failures —
after `M` issuances the assignment record is exactly task `i` ↦ nonce
`n0 + i`: the nonces are `n0, n0+1, …, n0+M-1` in issuance-index order,
strictly increasing (hence no repeats), and a nonce occurs iff it lies in
`[n0, n0+M)` (no gaps). -/
theorem c1_nonce_assignment (cfg : Cfg) (env : Nat → Beh) (s : St) (M : Nat)
    (hR : Reach cfg env s) (hM : s.started = M) :
    s.assigns = canonicalAssigns cfg.n0 M
    ∧ s.assigns.map Prod.fst = List.range M
    ∧ s.assigns.map Prod.snd = (List.range M).map (fun i => cfg.n0 + i)
    ∧ (s.assigns.map Prod.snd).Pairwise (· < ·)
    ∧ (∀ k, k ∈ s.assigns.map Prod.snd ↔ cfg.n0 ≤ k ∧ k < cfg.n0 + M) := by
  have ha : s.assigns = canonicalAssigns cfg.n0 M := hM ▸ (reach_inv hR).hassign
  have hsnd : s.assigns.map Prod.snd = (List.range M).map (fun i => cfg.n0 + i) := by
    rw [ha]
    simp [canonicalAssigns, List.map_map, Function.comp]
  refine ⟨ha, ?_, hsnd, ?_, ?_⟩
  · rw [ha]
    simp [canonicalAssigns, List.map_map, Function.comp_def]
  · rw [hsnd]
    exact (List.pairwise_lt_range M).map _
      (fun a b hab => Nat.add_lt_add_left hab cfg.n0)
  · intro k
    rw [hsnd]
    simp only [List.mem_map, List.mem_range]
    constructor
    · rintro ⟨i, hi, rfl⟩
      omega
    · rintro ⟨h1, h2⟩
      exact ⟨k - cfg.n0, by omega, by omega⟩

/-- Witness for C1: a completed two-issuance run starting at nonce 5
assigned the pairs (0, 5), (1, 6). -/
theorem c1_nonce_assignment_w :
    (fullSt 5 2).assigns = [(0, 5), (1, 6)]
    ∧ (fullSt 5 2).assigns.map Prod.snd = [5, 6] := by
  have hR : Reach demoCfg demoEnv (fullSt 5 2) :=
    reachFull demoCfg demoEnv (by decide) (by decide) 2 (by decide)
  have h := c1_nonce_assignment demoCfg demoEnv (fullSt 5 2) 2 hR rfl
  refine ⟨?_, ?_⟩
  · rw [h.1]
    decide
  · rw [h.2.2.1]
    decide

/-- C3: the planned total is the explicit count when one is supplied and
`ceil(duration × rate)` when a duration is supplied instead (line 136); and
in every reachable state of every run the number of issued admissions —
the value of `index`, which only `scheduleTick` increments under its
`index < plannedTotal` guard — never exceeds the planned total. -/
theorem c3_planned_total :
    (∀ duration tps : ℚ,
      plannedTotal none duration tps = ((⌈duration * tps⌉ : ℤ) : ℚ))
    ∧ (∀ (c : ℚ) (duration tps : ℚ), plannedTotal (some c) duration tps = c)
    ∧ (∀ (cfg : Cfg) (env : Nat → Beh) (s : St),
        Reach cfg env s → s.admitted ≤ cfg.planned) :=
  ⟨fun _ _ => rfl, fun _ _ _ => rfl,
   fun _ _ _ hR => (reach_inv hR).hap⟩

/-- Witness for C3: duration 3/2 at 4 tps plans 6 operations, an explicit
count of 10 plans 10, and a concrete completed run with planned = 2 has
admitted exactly 2 ≤ 2. -/
theorem c3_planned_total_w :
    plannedTotal none (3 / 2) 4 = 6
    ∧ plannedTotal (some 10) (3 / 2) 4 = 10
    ∧ (fullSt 5 2).admitted ≤ demoCfg.planned := by
  obtain ⟨h1, h2, h3⟩ := c3_planned_total
  refine ⟨?_, h2 10 (3 / 2) 4, ?_⟩
  · rw [h1 (3 / 2) 4]
    norm_num
  · exact h3 demoCfg demoEnv (fullSt 5 2)
      (reachFull demoCfg demoEnv (by decide) (by decide) 2 (by decide))

/-- C5: a task whose build/sign/submit step raises is caught: `sendOne`
rethrows after recording one failed outcome (and no success), the
scheduler-level `.catch` turns the exception into a settled task — it can
never surface as a crash, whatever the behaviour — and the run still
executes to completion with the canonical gap-free nonce assignment in
every reachable state, since a throwing task (its `settles` is true) also
releases its slot. -/
theorem c5_exception_containment :
    (taskCounters Beh.buildThrow).failed = 1
    ∧ (taskCounters Beh.buildThrow).succeeded = 0
    ∧ sendOneRes Beh.buildThrow = Except.error ()
    ∧ (∀ b : Beh, catchTask (sendOneRes b) ≠ SchedulerView.crashed)
    ∧ catchTask (sendOneRes Beh.buildThrow) = SchedulerView.taskSettled
    ∧ (∀ (cfg : Cfg) (env : Nat → Beh) (s : St), Reach cfg env s →
        s.assigns = canonicalAssigns cfg.n0 s.started)
    ∧ (∀ (cfg : Cfg) (env : Nat → Beh), 1 ≤ cfg.K →
        (∀ i, i < cfg.planned → settles (env i) = true) →
        Reach cfg env (fullSt cfg.n0 cfg.planned)
        ∧ (fullSt cfg.n0 cfg.planned).started = cfg.planned) := by
  refine ⟨rfl, rfl, rfl, ?_, rfl, ?_, ?_⟩
  · intro b
    rcases hb : sendOneRes b with e | tp
    · simp [catchTask]
    · cases tp <;> simp [catchTask]
  · exact fun _ _ _ hR => (reach_inv hR).hassign
  · intro cfg env hK hs
    exact ⟨reachFull cfg env hK hs cfg.planned (le_refl _), rfl⟩

/-- Witness for C5: the scenario where task 3's build step throws in a
five-task run with bound 2 — the failure is recorded, nothing crashes, the
run completes and every task got its canonical nonce. -/
theorem c5_exception_containment_w :
    (taskCounters Beh.buildThrow).failed = 1
    ∧ catchTask (sendOneRes Beh.buildThrow) = SchedulerView.taskSettled
    ∧ Reach demoCfg5 demoEnvThrow (fullSt 0 5)
    ∧ (fullSt 0 5).assigns = canonicalAssigns 0 5 := by
  have h := c5_exception_containment
  have h7 := h.2.2.2.2.2.2 demoCfg5 demoEnvThrow (by decide) (by decide)
  exact ⟨h.1, h.2.2.2.2.1, h7.1,
    h.2.2.2.2.2.1 demoCfg5 demoEnvThrow (fullSt 0 5) h7.1⟩

/-- C6: in every reachable state of every run, the number of started but
unsettled tasks — p-limit's `activeCount` — never exceeds the concurrency
bound `K`; and with `K` = 1 execution is fully sequential: whenever task
`i + 1` has started, task `i` has already settled, i.e. reached a terminal
state before `i + 1` was started. -/
theorem c6_concurrency_bound (cfg : Cfg) (env : Nat → Beh) (s : St)
    (hR : Reach cfg env s) :
    nonTerminalCount s ≤ cfg.K
    ∧ (cfg.K = 1 → ∀ i, i + 1 < s.started → i ∈ s.settled) :=
  ⟨(reach_inv hR).hK, (reach_inv hR).hseq⟩

/-- Witness for C6: the completed K = 1 run of two tasks has no active
task left and task 0 settled before task 1 started. -/
theorem c6_concurrency_bound_w :
    nonTerminalCount (fullSt 5 2) ≤ 1 ∧ 0 ∈ (fullSt 5 2).settled := by
  have h := c6_concurrency_bound demoCfg demoEnv (fullSt 5 2)
    (reachFull demoCfg demoEnv (by decide) (by decide) 2 (by decide))
  exact ⟨h.1, h.2 rfl 0 (by decide)⟩

end SendTx
